import Mathlib

/-!
Verification development for the `sorm` query builder / ORM.

This file gives a shallow embedding, in Lean, of the parts of the repository
that the specification talks about:

* the query builder (`src/query.rs`): `Query`, `where`/`or_where`,
  `having`/`or_having`, `select`/`select_raw`/`omit`, `build_select`,
  `update`, `delete`, and the Postgres placeholder rewriting
  `pg_replace_placeholder`;
* the identifier-quoting helpers (`src/lib.rs`): `concat_ident`,
  `concat_idents`, for both dialect families (the `postgres` cfg feature is
  modelled by a boolean flag);
* the per-record field-state tracking generated by the `#[sorm]` attribute
  macro (`sorm-macros/src/lib.rs`): the `__sorm_set` / `__sorm_update`
  bitmasks and the generated `new`, getter, setter, taker, `unset`, `isset`,
  `flush`, `is_changed`, `collect_filled`, `collect_changed` and `from_row`
  implementations;
* the clause template compiler (`sorm-macros/src/clause.rs`):
  `split_clause`, `parse_clause`, and the runtime evaluation of the code
  generated by `expand` for templates with spread (`{#expr}`) segments.

Rust `String`s are modelled as Lean `String`s in the query builder and as
`List Char` in the byte-level template compiler; fixed-width unsigned
integers (`u8`..`u128`) are modelled as `Nat` with explicit masking where the
source relies on the width (bitwise complement).
-/

namespace Sorm

/-! ## Errors (src/error.rs)

Only the three structured variants; the sqlx passthrough variants wrap
external driver errors and carry no behaviour of their own. -/

inductive Error where
  | FieldAbsent (field : String)
  | NoPrimaryKey
  | NoWhereClause
deriving DecidableEq, Repr

/-! ## Identifier quoting (src/lib.rs, `concat_ident` / `concat_idents`)

The source has two `#[cfg]` variants of `concat_ident`; the `pg : Bool`
parameter models which cfg feature is active (`true` = `postgres`). -/

def concat_ident (pg : Bool) (s : String) (ident : String) : String :=
  if pg then s ++ "\"" ++ ident ++ "\"" else s ++ "`" ++ ident ++ "`"

/-- `concat_idents`: quote each identifier, push `","` after each, then pop
the trailing comma (no-op on the empty list). -/
def concat_idents (pg : Bool) (s : String) (idents : List String) : String :=
  if idents.isEmpty then s
  else String.dropRight (idents.foldl (fun acc v => concat_ident pg acc v ++ ",") s) 1

/-! ## The query builder (src/query.rs) -/

inductive Select where
  | columns (cols : List String)
  | raw (expr : String)
  | omitted (cols : List String)
  | none
deriving DecidableEq, Repr

inductive OrderBy where
  | asc (c : String)
  | desc (c : String)
  | raw (e : String)
deriving DecidableEq, Repr

/-- The `Query<'q>` builder state. `P` is the type of bound parameters
(`&dyn Param` in the source). Criteria and having entries are
`(expr, params)` pairs exactly as stored in the source's `Vec`s; the
`" AND "` / `" OR "` joiner fragments are entries of the same list. -/
structure Query (P : Type) where
  table : String
  columns : Option (List String)
  select : Select
  criteria : List (String × List P)
  group_by : Select
  having : List (String × List P)
  order_by : List OrderBy
  offset : Option Nat
  limit : Option Nat

variable {P : Type}

/-- `Query::new(table, columns)`. -/
def Query.new (table : String) (columns : Option (List String)) : Query P :=
  { table := table, columns := columns, select := .none, criteria := [],
    group_by := .none, having := [], order_by := [], offset := .none, limit := .none }

/-- `Query::table(table)` (named `ofTable` here because `table` is the field
projection). -/
def Query.ofTable (table : String) : Query P := Query.new table .none

/-- `Query::select`. -/
def select (q : Query P) (columns : List String) : Query P :=
  { q with select := .columns columns }

/-- `Query::select_raw`. -/
def select_raw (q : Query P) (expr : String) : Query P :=
  { q with select := .raw expr }

/-- `Query::omit` (pub(crate); reached through `model::Query::omit`). An
empty column list leaves the builder untouched. The source builds a
`HashSet`; we keep the list and use list membership for `contains`. -/
def omitCols (q : Query P) (columns : List String) : Query P :=
  if columns.isEmpty then q else { q with select := .omitted columns }

/-- `Query::r#where`: push an `" AND "` joiner first whenever criteria
already exist, then push the new criterion. -/
def rwhere (q : Query P) (c : String × List P) : Query P :=
  { q with criteria :=
      (if q.criteria.isEmpty then q.criteria else q.criteria ++ [(" AND ", [])]) ++ [c] }

/-- `Query::or_where`. -/
def or_where (q : Query P) (c : String × List P) : Query P :=
  { q with criteria :=
      (if q.criteria.isEmpty then q.criteria else q.criteria ++ [(" OR ", [])]) ++ [c] }

/-- `Query::having`. -/
def having (q : Query P) (c : String × List P) : Query P :=
  { q with having :=
      (if q.having.isEmpty then q.having else q.having ++ [(" AND ", [])]) ++ [c] }

/-- `Query::or_having`. -/
def or_having (q : Query P) (c : String × List P) : Query P :=
  { q with having :=
      (if q.having.isEmpty then q.having else q.having ++ [(" OR ", [])]) ++ [c] }

/-- `Query::group_by`. -/
def group_by (q : Query P) (fields : List String) : Query P :=
  { q with group_by := .columns fields }

/-- `Query::group_by_raw`. -/
def group_by_raw (q : Query P) (expr : String) : Query P :=
  { q with group_by := .raw expr }

/-- `Query::order_by`. -/
def order_by (q : Query P) (c : String) : Query P :=
  { q with order_by := q.order_by ++ [.asc c] }

/-- `Query::order_by_desc`. -/
def order_by_desc (q : Query P) (c : String) : Query P :=
  { q with order_by := q.order_by ++ [.desc c] }

/-- `Query::order_by_raw`. -/
def order_by_raw (q : Query P) (e : String) : Query P :=
  { q with order_by := q.order_by ++ [.raw e] }

/-- `Query::offset`. -/
def offset (q : Query P) (n : Nat) : Query P := { q with offset := some n }

/-- `Query::limit`. -/
def limit (q : Query P) (n : Nat) : Query P := { q with limit := some n }

/-! ### Postgres placeholder rewriting (`pg_replace_placeholder`) -/

/-- Decimal digits of `k`, as the characters `format!("{}", k)` produces. -/
def natChars (k : Nat) : List Char := (toString k).data

/-- The character loop of `pg_replace_placeholder`: replace each `'?'` with
`'$'` followed by the current counter value, incrementing the counter. -/
def pgReplaceAux : Nat → List Char → List Char
  | _, [] => []
  | num, c :: rest =>
    if c = '?' then '$' :: natChars num ++ pgReplaceAux (num + 1) rest
    else c :: pgReplaceAux num rest

/-- `pg_replace_placeholder`, counter starting at 1. -/
def pg_replace_placeholder (s : String) : String := ⟨pgReplaceAux 1 s.data⟩

/-! ### Statement assembly -/

/-- The criteria/having rendering loop of `build_select` / `update` /
`delete`: concatenate each fragment's expression onto the SQL text and its
parameters onto the parameter list, in order. -/
def renderFragments (sql : String) (params : List P) (frags : List (String × List P)) :
    String × List P :=
  frags.foldl (fun acc f => (acc.1 ++ f.1, acc.2 ++ f.2)) (sql, params)

/-- One `ORDER BY` entry, as rendered inside the loop of `build_select`. -/
def renderOrderByItem (pg : Bool) (s : String) : OrderBy → String
  | .asc v => concat_ident pg s v
  | .desc v => concat_ident pg s v ++ " DESC"
  | .raw v => s ++ v

/-- The `SELECT` column list, by selection-spec variant. In the `Omitted`
branch the source iterates `self.columns.unwrap()` (it panics when no schema
columns are present; `omit` is only reachable from model queries, which
always carry columns — we use `getD []` for totality) and appends each
non-omitted column via `concat_ident` with no separator. -/
def selectColumnsSql (pg : Bool) (q : Query P) : String :=
  let sql := "SELECT "
  match q.select with
  | .columns fields => concat_idents pg sql fields
  | .raw e => sql ++ e
  | .omitted om =>
    (q.columns.getD []).foldl (fun acc v => if v ∈ om then acc else concat_ident pg acc v) sql
  | .none =>
    match q.columns with
    | some cols => concat_idents pg sql cols
    | none => sql ++ "*"

/-- Everything of `build_select` before the `LIMIT` / `OFFSET` tail. -/
def selectBody (pg : Bool) (q : Query P) : String × List P :=
  let sql := concat_ident pg (selectColumnsSql pg q ++ " FROM ") q.table
  let sp :=
    if q.criteria.isEmpty then (sql, ([] : List P))
    else renderFragments (sql ++ " WHERE ") [] q.criteria
  let sql := sp.1
  let params := sp.2
  let sql := match q.group_by with
    | .columns fields => concat_idents pg (sql ++ " GROUP BY ") fields
    | .raw e => sql ++ " GROUP BY " ++ e
    | .omitted _ => sql   -- source: `unreachable!()` (never built by the API)
    | .none => sql
  let sp :=
    if q.having.isEmpty then (sql, params)
    else renderFragments (sql ++ " HAVING ") params q.having
  let sql := sp.1
  let params := sp.2
  let sql :=
    if q.order_by.isEmpty then sql
    else String.dropRight
      (q.order_by.foldl (fun s v => renderOrderByItem pg s v ++ ",") (sql ++ " ORDER BY ")) 1
  (sql, params)

/-- The `LIMIT` tail: `limit.or(self.limit)`. -/
def limitSql (q : Query P) (l : Option Nat) : String :=
  match l.or q.limit with
  | some l => " LIMIT " ++ toString l
  | none => ""

/-- The `OFFSET` tail. -/
def offsetSql (q : Query P) : String :=
  match q.offset with
  | some o => " OFFSET " ++ toString o
  | none => ""

/-- `Query::build_select(limit)` — the complete rendered SELECT statement
and its parameter list. Under the `postgres` feature the fully assembled SQL
is passed through `pg_replace_placeholder` as the last step. -/
def build_select (pg : Bool) (q : Query P) (l : Option Nat) : String × List P :=
  let sp := selectBody pg q
  let sql := sp.1 ++ limitSql q l ++ offsetSql q
  (if pg then pg_replace_placeholder sql else sql, sp.2)

/-- The statement rendered by `Query::get` / `Query::plunk`
(`build_select(None)`). -/
def get_sql (pg : Bool) (q : Query P) : String × List P := build_select pg q .none

/-- The statement rendered by the single-result reads `Query::find`,
`Query::find_optional`, `Query::value`, `Query::value_optional`
(`build_select(Some(1))`). -/
def find_sql (pg : Bool) (q : Query P) : String × List P := build_select pg q (some 1)

/-- `Query::update`: guard on an empty criteria list, then render
`UPDATE <table> SET <update> WHERE <criteria>` with the update parameters
first. Returns the statement issued; the error case issues none. -/
def update (pg : Bool) (q : Query P) (u : String × List P) :
    Except Error (String × List P) :=
  if q.criteria.isEmpty then .error .NoWhereClause
  else
    let sql := concat_ident pg "UPDATE " q.table ++ " SET " ++ u.1 ++ " WHERE "
    let sp := renderFragments sql u.2 q.criteria
    .ok (if pg then pg_replace_placeholder sp.1 else sp.1, sp.2)

/-- `Query::delete`: same guard, renders `DELETE FROM <table> WHERE
<criteria>`. -/
def delete (pg : Bool) (q : Query P) : Except Error (String × List P) :=
  if q.criteria.isEmpty then .error .NoWhereClause
  else
    let sql := concat_ident pg "DELETE FROM " q.table ++ " WHERE "
    let sp := renderFragments sql ([] : List P) q.criteria
    .ok (if pg then pg_replace_placeholder sp.1 else sp.1, sp.2)

/-! ## Field-state tracking (sorm-macros/src/lib.rs)

The `#[sorm]` attribute macro adds two same-width unsigned mask fields
`__sorm_set` / `__sorm_update` to the struct (`modify_item` / `size_type`)
and generates the accessors of `impl_self`, plus `flush`, `is_changed`,
`collect_filled`, `collect_changed` (`impl_model`) and a `FromRow`
implementation (`impl_from_row`).

A record with `n` fields of (heterogeneous) types is modelled by a
dependent function for the field values and two `Nat` masks.
`Default::default()` is `default` of the `Inhabited` instance. Field `i`'s
generated accessors are indexed here by `i : Fin n` (the source generates
one accessor per field name; the name-to-position map is total and
static). -/

/-- `size_type`: the bit width of the mask type chosen for `n` fields
(`u8`..`u128`). `0` stands for the `panic!` on more than 128 fields. -/
def size_type (n : Nat) : Nat :=
  if n ≤ 8 then 8 else if n ≤ 16 then 16 else if n ≤ 32 then 32
  else if n ≤ 64 then 64 else if n ≤ 128 then 128 else 0

/-- Bitwise complement `!x` at width `w` (`!(1 << seq)` on `u8`..`u128`). -/
def rustNot (w x : Nat) : Nat := (2 ^ w - 1) ^^^ x

/-- The generated bit test `(mask >> seq) & 1 == 1`. -/
def bitTest (m i : Nat) : Bool := (m >>> i) &&& 1 == 1

structure Record (n : Nat) (τ : Fin n → Type) where
  vals : (i : Fin n) → τ i
  sorm_set : Nat      -- `__sorm_set`
  sorm_update : Nat   -- `__sorm_update`

variable {n : Nat} {τ : Fin n → Type} [∀ i, Inhabited (τ i)]

/-- The generated `new`: every field `Default::default()`, both masks 0. -/
def Record.new : Record n τ :=
  { vals := fun _ => default, sorm_set := 0, sorm_update := 0 }

/-- The generated getter: `Ok(&field)` when `(__sorm_set >> seq) & 1 == 1`,
else `FieldAbsent`. `names i` is the field's name literal. -/
def Record.get (r : Record n τ) (names : Fin n → String) (i : Fin n) :
    Except Error (τ i) :=
  if bitTest r.sorm_set i then .ok (r.vals i) else .error (.FieldAbsent (names i))

/-- The generated setter `set_<field>`: write the value, set both bits. -/
def Record.set (r : Record n τ) (i : Fin n) (v : τ i) : Record n τ :=
  { vals := Function.update r.vals i v,
    sorm_set := r.sorm_set ||| 1 <<< (i : Nat),
    sorm_update := r.sorm_update ||| 1 <<< (i : Nat) }

/-- The generated taker `take_<field>`: when filled, `mem::take` the value
(leaving the default) and clear both bits; else `FieldAbsent`. -/
def Record.take (r : Record n τ) (names : Fin n → String) (i : Fin n) :
    Except Error (τ i × Record n τ) :=
  if bitTest r.sorm_set i then
    .ok (r.vals i,
      { vals := Function.update r.vals i default,
        sorm_set := r.sorm_set &&& rustNot (size_type n) (1 <<< (i : Nat)),
        sorm_update := r.sorm_update &&& rustNot (size_type n) (1 <<< (i : Nat)) })
  else .error (.FieldAbsent (names i))

/-- The generated `unset`: when the `filled` bit is set, clear it and reset
the field to its default; `__sorm_update` is never touched. (The source
takes the field name and panics on unknown names; indexing by `Fin n`
models the known-name cases.) -/
def Record.unset (r : Record n τ) (i : Fin n) : Record n τ :=
  if bitTest r.sorm_set i then
    { vals := Function.update r.vals i default,
      sorm_set := r.sorm_set &&& rustNot (size_type n) (1 <<< (i : Nat)),
      sorm_update := r.sorm_update }
  else r

/-- The generated `isset`. -/
def Record.isset (r : Record n τ) (i : Fin n) : Bool := bitTest r.sorm_set i

/-- Generated `Model::flush`: `__sorm_update = 0`. -/
def Record.flush (r : Record n τ) : Record n τ := { r with sorm_update := 0 }

/-- Generated `Model::is_changed`: `__sorm_update > 0`. -/
def Record.is_changed (r : Record n τ) : Bool := decide (0 < r.sorm_update)

/-- Generated `Model::collect_filled`: the `(name, value)` pairs of the
fields whose `__sorm_set` bit is set, in declaration order. (The source's
initial `== 0` early return and capacity popcount do not change the
result.) -/
def Record.collect_filled (r : Record n τ) (names : Fin n → String) :
    List (String × Sigma τ) :=
  (List.finRange n).filterMap fun (i : Fin n) =>
    if bitTest r.sorm_set (i : Nat) then some (names i, ⟨i, r.vals i⟩) else none

/-- Generated `Model::collect_changed`: same over `__sorm_update`. -/
def Record.collect_changed (r : Record n τ) (names : Fin n → String) :
    List (String × Sigma τ) :=
  (List.finRange n).filterMap fun (i : Fin n) =>
    if bitTest r.sorm_update (i : Nat) then some (names i, ⟨i, r.vals i⟩) else none

/-- One column lookup result inside the generated `from_row`
(`row.try_get(name)`). -/
inductive RowRes (α : Type) where
  | ok (v : α)
  | columnNotFound
  | err

/-- One iteration of the generated `from_row` loop: write the row value and
set the `__sorm_set` bit, tolerate `ColumnNotFound`, propagate any other
error. -/
def fromRowStep (row : (i : Fin n) → RowRes (τ i)) (r : Record n τ) (i : Fin n) :
    Except Unit (Record n τ) :=
  match row i with
  | .ok v => .ok { r with vals := Function.update r.vals i v,
                          sorm_set := r.sorm_set ||| 1 <<< (i : Nat) }
  | .columnNotFound => .ok r
  | .err => .error ()

/-- The generated `FromRow::from_row`: start from `Self::new()`, then
`fromRowStep` for each field in declaration order. -/
def Record.from_row (row : (i : Fin n) → RowRes (τ i)) : Except Unit (Record n τ) :=
  (List.finRange n).foldlM (fromRowStep row) Record.new

/-! ## Clause template compiler (sorm-macros/src/clause.rs)

The template is scanned over its raw bytes; we model it as a `List Char`
(the grammar characters `{`, `}`, `#` are ASCII). The source's index/slice
loops are modelled by structural recursion over the remaining input; where
the source records a position and later slices (`clause[left + 1..i]`,
`clause[i + 1..right]`), we accumulate the same characters instead.

Host-language expression parsing (`parse_expr`, via `syn`) is outside the
brace grammar; an expression is modelled by its raw characters and
`parse_expr` as always succeeding (its failures concern Rust syntax inside
a placeholder, not the template grammar). Error positions/messages are
collapsed to constructors. -/

inductive ClauseErr where
  | unexpectedLBrace  -- "unexpected `{` at position i"
  | unexpectedRBrace  -- "unexpected `}` at position i"
  | unclosedLBrace    -- "unclosed `{` at position i"
deriving DecidableEq, Repr

/-- The scan loop of `parse_clause`. `sql`/`params` are the output
accumulators; `left = some acc` means a single unescaped `{` is open and
`acc` holds the characters seen since it (the source keeps the position
and slices at the closing `}`). -/
def parseClauseAux (sql : List Char) (params : List (List Char))
    (left : Option (List Char)) : List Char → Except ClauseErr (List Char × List (List Char))
  | [] =>
    match left with
    | some _ => .error .unclosedLBrace
    | none => .ok (sql, params)
  | c :: rest =>
    if c = '{' then
      -- case 1 of the source: `{` while a placeholder is open, or `{` at
      -- the last position, is an error; `{{` is the literal-`{` escape;
      -- otherwise a placeholder opens.
      if left.isSome then .error .unexpectedLBrace
      else
        match rest with
        | [] => .error .unexpectedLBrace
        | c2 :: rest2 =>
          if c2 = '{' then parseClauseAux (sql ++ ['{']) params none rest2
          else parseClauseAux sql params (some []) (c2 :: rest2)
    else if c = '}' then
      match rest with
      | c2 :: rest2 =>
        if c2 = '}' then
          -- `}}` escape: push a literal `}`; if a placeholder is open,
          -- both characters stay inside the eventual slice.
          parseClauseAux (sql ++ ['}']) params (left.map (· ++ ['}', '}'])) rest2
        else
          match left with
          | none => .error .unexpectedRBrace
          | some acc =>
            if acc = [] then .error .unexpectedRBrace
            else parseClauseAux (sql ++ ['?']) (params ++ [acc]) none (c2 :: rest2)
      | [] =>
        match left with
        | none => .error .unexpectedRBrace
        | some acc =>
          if acc = [] then .error .unexpectedRBrace
          else parseClauseAux (sql ++ ['?']) (params ++ [acc]) none []
    else
      match left with
      | none => parseClauseAux (sql ++ [c]) params left rest
      | some acc => parseClauseAux sql params (some (acc ++ [c])) rest

/-- `parse_clause`: SQL text (with `?` placeholders) and the placeholder
expressions, in order. -/
def parse_clause (clause : List Char) : Except ClauseErr (List Char × List (List Char)) :=
  parseClauseAux [] [] none clause

/-- The inner `while j < clause.len()` loop of `split_clause`: scan for the
`}` closing a spread segment, skipping `}}` pairs (which stay part of the
expression slice). Returns the expression characters and the input after
the closing `}`. -/
def findSpreadEnd : List Char → Option (List Char × List Char)
  | [] => none
  | '}' :: '}' :: rest => (findSpreadEnd rest).map (fun p => ('}' :: '}' :: p.1, p.2))
  | '}' :: rest => some ([], rest)
  | c :: rest => (findSpreadEnd rest).map (fun p => (c :: p.1, p.2))

/-- The remainder returned by `findSpreadEnd` is strictly shorter than its
input (it at least consumes the closing `}`). -/
theorem findSpreadEnd_length_lt :
    ∀ cs e r, findSpreadEnd cs = some (e, r) → r.length < cs.length := by
  intro cs
  induction cs using findSpreadEnd.induct with
  | case1 => intro e r h; simp [findSpreadEnd] at h
  | case2 rest ih =>
    intro e r h
    simp only [findSpreadEnd, Option.map_eq_some'] at h
    obtain ⟨p, hp, he⟩ := h
    have := ih p.1 p.2 (by simpa using hp)
    cases he; simp; omega
  | case3 rest h1 =>
    intro e r h
    simp only [findSpreadEnd] at h
    cases h; simp
  | case4 c rest h1 h2 ih =>
    intro e r h
    simp only [findSpreadEnd, Option.map_eq_some'] at h
    obtain ⟨p, hp, he⟩ := h
    have := ih p.1 p.2 (by simpa using hp)
    cases he; simp; omega

/-- A part produced by `split_clause`: `Ok` = static chunk, `Err` = spread
expression (the source uses `Result<&[u8], &[u8]>`). -/
inductive Part where
  | ok (chunk : List Char)
  | err (expr : List Char)
deriving DecidableEq, Repr

/-- The scan loop of `split_clause`. `acc` is the pending static chunk
(`clause[offset..i]`), `count` the consecutive-`{` counter (reset by every
non-`{` character). A `#` met while `count` is odd starts a spread segment:
the pending chunk minus its trailing `{` is pushed when non-empty
(`i - 1 > offset`), then the spread expression, which must be non-empty. -/
def splitClauseAux (parts : List Part) (acc : List Char) (count : Nat) :
    List Char → Except ClauseErr (List Part)
  | [] => .ok (if acc = [] then parts else parts ++ [.ok acc])
  | c :: rest =>
    if c = '{' then splitClauseAux parts (acc ++ ['{']) (count + 1) rest
    else if c = '#' ∧ count % 2 = 1 then
      match h : findSpreadEnd rest with
      | some (expr, rest2) =>
        if expr = [] then .error .unexpectedRBrace
        else
          splitClauseAux
            ((if acc.dropLast = [] then parts else parts ++ [.ok acc.dropLast]) ++ [.err expr])
            [] 0 rest2
      | none => .error .unclosedLBrace
    else splitClauseAux parts (acc ++ [c]) 0 rest
termination_by cs => cs.length
decreasing_by
  · simp
  · have := findSpreadEnd_length_lt _ _ _ h
    simp; omega
  · simp

/-- `split_clause`. -/
def split_clause (clause : List Char) : Except ClauseErr (List Part) :=
  splitClauseAux [] [] 0 clause

/-- A compiled segment of the clause: a static chunk already compiled to
`(sql, exprs)` by `parse_clause`, or a spread expression expanded at
evaluation time. -/
inductive Seg where
  | static (sql : List Char) (exprs : List (List Char))
  | spread (expr : List Char)
deriving DecidableEq, Repr

/-- The compilation pipeline of `expand` (applied to the already-trimmed
template): `split_clause`, then `parse_clause` on every static part. The
source's single-static-part path parses the whole clause directly, which
is that part itself; both paths produce these segments. -/
def compileClause (clause : List Char) : Except ClauseErr (List Seg) :=
  match split_clause clause with
  | .error e => .error e
  | .ok parts =>
    parts.mapM fun
      | .ok chunk => (parse_clause chunk).map fun r => Seg.static r.1 r.2
      | .err expr => .ok (Seg.spread expr)

/-- The generated runtime step for one spread segment's SQL: push `"?,"`
per element, then pop the trailing comma when at least one element was
pushed. -/
def spreadSql (len : Nat) : List Char :=
  let s := (List.replicate len ['?', ',']).flatten
  if len > 0 then s.dropLast else s

variable {V : Type}

/-- Evaluating the code `expand` generates: the segments are processed in
order, each appending onto the `__sorm_sql` / `__sorm_params` accumulators.
A static segment appends its compiled SQL and its parameter expressions'
values; a spread segment appends `spreadSql` of the sequence's length and
the sequence's elements. `envS` evaluates a scalar expression, `envL` a
sequence expression. (The generated code builds the SQL and the parameter
list in two separate passes over the same segments; the per-accumulator
effect is identical.) -/
def evalSegsAux (envS : List Char → V) (envL : List Char → List V)
    (sqlAcc : List Char) (paramAcc : List V) : List Seg → List Char × List V
  | [] => (sqlAcc, paramAcc)
  | .static sql exprs :: rest =>
    evalSegsAux envS envL (sqlAcc ++ sql) (paramAcc ++ exprs.map envS) rest
  | .spread expr :: rest =>
    evalSegsAux envS envL (sqlAcc ++ spreadSql (envL expr).length)
      (paramAcc ++ envL expr) rest

/-- Evaluation of a compiled clause, starting from empty accumulators. -/
def evalSegs (envS : List Char → V) (envL : List Char → List V) (segs : List Seg) :
    List Char × List V :=
  evalSegsAux envS envL [] [] segs

/-! ## Helper lemmas -/

theorem pgReplaceAux_append (a : List Char) (k : Nat) (b : List Char) :
    pgReplaceAux k (a ++ b) = pgReplaceAux k a ++ pgReplaceAux (k + a.count '?') b := by
  induction a generalizing k with
  | nil => simp [pgReplaceAux]
  | cons c a ih =>
    by_cases hc : c = '?'
    · subst hc
      have hcnt : List.count '?' ('?' :: a) = List.count '?' a + 1 := by
        simp [List.count_cons]
      simp [pgReplaceAux, hcnt, ih, List.append_assoc, Nat.add_assoc, Nat.add_comm 1]
    · have hcnt : List.count '?' (c :: a) = List.count '?' a := by
        simp [List.count_cons, hc]
      simp only [List.cons_append, pgReplaceAux, if_neg hc, hcnt, List.append_eq]
      rw [ih]

theorem pgReplaceAux_of_no_placeholder (b : List Char) (k : Nat) (h : '?' ∉ b) :
    pgReplaceAux k b = b := by
  induction b generalizing k with
  | nil => simp [pgReplaceAux]
  | cons c b ih =>
    have hc : c ≠ '?' := fun hc => h (hc ▸ List.mem_cons_self c b)
    simp only [pgReplaceAux, if_neg hc]
    rw [ih _ (fun hb => h (List.mem_cons_of_mem c hb))]

theorem strJoin_shift (l : List String) (x : String) :
    l.foldl (fun r s => r ++ s) x = x ++ String.join l := by
  induction l generalizing x with
  | nil => simp [String.join]
  | cons s l ih =>
    show l.foldl (fun r s => r ++ s) (x ++ s) = _
    rw [ih]
    show _ = x ++ l.foldl (fun r s => r ++ s) ("" ++ s)
    rw [ih ("" ++ s)]
    simp [String.append_assoc]

theorem strJoin_cons (x : String) (l : List String) :
    String.join (x :: l) = x ++ String.join l := by
  show l.foldl (fun r s => r ++ s) ("" ++ x) = _
  rw [strJoin_shift]
  simp

/-- The criteria/having text: the concatenation of the fragments'
expressions (the SQL part of the `build_select` rendering loop). -/
def critText (cs : List (String × List P)) : String :=
  cs.foldl (fun s c => s ++ c.1) ""

theorem critText_shift (cs : List (String × List P)) (s : String) :
    cs.foldl (fun s c => s ++ c.1) s = s ++ critText cs := by
  induction cs generalizing s with
  | nil => simp [critText]
  | cons c cs ih =>
    simp only [critText, List.foldl_cons]
    rw [ih, ih ("" ++ c.1), String.append_assoc]
    simp

theorem critText_append (a b : List (String × List P)) :
    critText (a ++ b) = critText a ++ critText b := by
  simp only [critText, List.foldl_append]
  rw [critText_shift]
  rfl

theorem renderFragments_fst (frags : List (String × List P)) (sql : String) (params : List P) :
    (renderFragments sql params frags).1 = sql ++ critText frags := by
  induction frags generalizing sql params with
  | nil => simp [renderFragments, critText]
  | cons f fs ih =>
    show (renderFragments (sql ++ f.1) (params ++ f.2) fs).1 = _
    rw [ih]
    have h : critText (f :: fs) = critText [f] ++ critText fs := critText_append [f] fs
    rw [h]
    have he : critText ([f] : List (String × List P)) = f.1 := by simp [critText]
    rw [he, String.append_assoc]

/-! ## C1 — the `NoWhereClause` guard -/

/-- C1 (amended): with an empty filter-criterion list, `update` and `delete`
fail with `NoWhereClause` and issue no statement; but a `where` call whose
clause expression is the empty string still pushes a criterion, making the
list non-empty, after which `update`/`delete` do issue a statement — the
guard is keyed purely on the criteria list being empty and *is* bypassed by
an empty-string criterion. -/
theorem c1_no_where_guard {P : Type} (pg : Bool) (q : Query P) (u : String × List P)
    (h : q.criteria = []) :
    update pg q u = .error .NoWhereClause ∧
    delete pg q = .error .NoWhereClause ∧
    ∀ c : String × List P,
      (rwhere q c).criteria = [c] ∧
      update pg (rwhere q c) u ≠ .error .NoWhereClause ∧
      delete pg (rwhere q c) ≠ .error .NoWhereClause := by
  refine ⟨by simp [update, h], by simp [delete, h], fun c => ⟨by simp [rwhere, h], ?_, ?_⟩⟩
  · simp [update, rwhere, h]
  · simp [delete, rwhere, h]

/-- C1 witness. -/
theorem c1_no_where_guard_witness :
    update false (Query.ofTable "t" : Query Unit) ("`x`=?", []) = .error .NoWhereClause ∧
    delete false (Query.ofTable "t" : Query Unit) = .error .NoWhereClause := by
  have h := c1_no_where_guard false (Query.ofTable "t" : Query Unit) ("`x`=?", []) rfl
  exact ⟨h.1, h.2.1⟩

/-- C1 counterexample: the claim says the guard "cannot be bypassed by adding
an empty-string criterion"; it can. After `where("")` the criteria list is
`[("", [])]`, so `update` issues a statement (with a dangling `WHERE`)
instead of failing with `NoWhereClause`. -/
theorem c1_counterexample :
    update false (rwhere (Query.ofTable "t" : Query Unit) ("", [])) ("`x`=?", [()]) =
      .ok ("UPDATE `t` SET `x`=? WHERE ", [()]) ∧
    delete false (rwhere (Query.ofTable "t" : Query Unit) ("", [])) =
      .ok ("DELETE FROM `t` WHERE ", []) := by
  constructor <;> rfl

/-! ## C2 — `omit` column rendering -/

/-- C2: the `Omitted` branch of `build_select` renders the remaining schema
columns with *no* comma between them, unlike `concat_idents` (used for an
explicit column list), which comma-joins. With schema columns
`["id", "name", "enable"]` and omit set `{"name"}` the statement reads
`SELECT `id``enable` FROM `t`` — invalid SQL — rather than
`SELECT `id`,`enable` FROM `t``. -/
theorem c2_omit_rendering_not_comma_joined :
    (build_select false
        (omitCols (Query.new "t" (some ["id", "name", "enable"])) ["name"] : Query Unit)
        Option.none).1 = "SELECT `id``enable` FROM `t`" ∧
    concat_idents false "SELECT " ["id", "enable"] ++ " FROM `t`" =
      "SELECT `id`,`enable` FROM `t`" ∧
    "SELECT `id``enable` FROM `t`" ≠ "SELECT `id`,`enable` FROM `t`" := by
  refine ⟨rfl, rfl, by decide⟩

/-! ## C4 — single-result reads force `LIMIT 1` -/

/-- C4: `find`/`find_optional`/`value`/`value_optional` render
`build_select(Some(1))`; `Some(1).or(self.limit)` is `Some(1)` whatever
limit was configured, so the rendered SQL does not depend on the configured
limit, equals the rendering with limit 1 configured, and contains
` LIMIT 1` (also after Postgres placeholder rewriting, which only touches
`?` characters). -/
theorem c4_find_forces_limit_one {P : Type} (pg : Bool) (q : Query P) :
    (∀ l', find_sql pg { q with limit := l' } = find_sql pg q) ∧
    find_sql pg q = build_select pg (limit q 1) Option.none ∧
    ∃ pre post, (find_sql pg q).1 = pre ++ " LIMIT 1" ++ post := by
  refine ⟨fun l' => rfl, rfl, ?_⟩
  cases pg
  · refine ⟨(selectBody false q).1, offsetSql q, ?_⟩
    have h1 : limitSql q (some 1) = " LIMIT 1" := rfl
    show (selectBody false q).1 ++ limitSql q (some 1) ++ offsetSql q = _
    rw [h1]
  · refine ⟨⟨pgReplaceAux 1 (selectBody true q).1.data⟩,
      ⟨pgReplaceAux (1 + (selectBody true q).1.data.count '?') (offsetSql q).data⟩, ?_⟩
    have key : pgReplaceAux 1
        (((selectBody true q).1.data ++ (" LIMIT 1" : String).data) ++ (offsetSql q).data) =
        pgReplaceAux 1 (selectBody true q).1.data ++ (" LIMIT 1" : String).data ++
          pgReplaceAux (1 + (selectBody true q).1.data.count '?') (offsetSql q).data := by
      rw [pgReplaceAux_append, pgReplaceAux_append,
        pgReplaceAux_of_no_placeholder (" LIMIT 1" : String).data _ (by decide)]
      have h0 : (" LIMIT 1" : String).data.count '?' = 0 := by decide
      simp [List.count_append, h0]
    have h1 : limitSql q (some 1) = " LIMIT 1" := rfl
    show pg_replace_placeholder ((selectBody true q).1 ++ limitSql q (some 1) ++ offsetSql q) = _
    rw [h1]
    exact congrArg String.mk key

/-! ## C6 — `AND` / `OR` joiner insertion -/

/-- A sequence of `where`-family (or `having`-family) calls: `true` marks
the `or_` variant. -/
def applyWhere (q : Query P) : List (Bool × (String × List P)) → Query P
  | [] => q
  | (isOr, c) :: rest => applyWhere (if isOr then or_where q c else rwhere q c) rest

def applyHaving (q : Query P) : List (Bool × (String × List P)) → Query P
  | [] => q
  | (isOr, c) :: rest => applyHaving (if isOr then or_having q c else having q c) rest

def joinerStr (isOr : Bool) : String := if isOr then " OR " else " AND "

/-- The text the spec prescribes for a call sequence starting from no
criteria: the first criterion bare, each later one preceded by its own
call's joiner. -/
def renderCalls : List (Bool × (String × List P)) → String
  | [] => ""
  | (_, c) :: rest => c.1 ++ String.join (rest.map fun x => joinerStr x.1 ++ x.2.1)

theorem applyWhere_ne_nil_text (calls : List (Bool × (String × List P))) :
    ∀ q : Query P, q.criteria ≠ [] →
      critText (applyWhere q calls).criteria =
        critText q.criteria ++ String.join (calls.map fun x => joinerStr x.1 ++ x.2.1) := by
  induction calls with
  | nil => intro q hq; simp [applyWhere, String.join]
  | cons x rest ih =>
    intro q hq
    obtain ⟨isOr, c⟩ := x
    have hne : ¬q.criteria.isEmpty := by simpa [List.isEmpty_iff] using hq
    have hcrit : (if isOr then or_where q c else rwhere q c).criteria =
        q.criteria ++ [(joinerStr isOr, []), c] := by
      cases isOr <;> simp [or_where, rwhere, joinerStr, hne]
    have hne2 : (if isOr then or_where q c else rwhere q c).criteria ≠ [] := by
      rw [hcrit]; simp
    show critText (applyWhere (if isOr then or_where q c else rwhere q c) rest).criteria = _
    rw [ih _ hne2, hcrit, critText_append]
    have h2 : critText ([(joinerStr isOr, []), c] : List (String × List P)) =
        joinerStr isOr ++ c.1 := by
      simp [critText]
    rw [h2, List.map_cons, strJoin_cons, String.append_assoc, String.append_assoc]

theorem applyHaving_ne_nil_text (calls : List (Bool × (String × List P))) :
    ∀ q : Query P, q.having ≠ [] →
      critText (applyHaving q calls).having =
        critText q.having ++ String.join (calls.map fun x => joinerStr x.1 ++ x.2.1) := by
  induction calls with
  | nil => intro q hq; simp [applyHaving, String.join]
  | cons x rest ih =>
    intro q hq
    obtain ⟨isOr, c⟩ := x
    have hne : ¬q.having.isEmpty := by simpa [List.isEmpty_iff] using hq
    have hcrit : (if isOr then or_having q c else having q c).having =
        q.having ++ [(joinerStr isOr, []), c] := by
      cases isOr <;> simp [or_having, having, joinerStr, hne]
    have hne2 : (if isOr then or_having q c else having q c).having ≠ [] := by
      rw [hcrit]; simp
    show critText (applyHaving (if isOr then or_having q c else having q c) rest).having = _
    rw [ih _ hne2, hcrit, critText_append]
    have h2 : critText ([(joinerStr isOr, []), c] : List (String × List P)) =
        joinerStr isOr ++ c.1 := by
      simp [critText]
    rw [h2, List.map_cons, strJoin_cons, String.append_assoc, String.append_assoc]

/-- C6: a `where`/`or_where` (`having`/`or_having`) call on an empty
criterion list adds just the criterion; on a non-empty list it inserts
exactly one joiner entry — `" AND "` for the primary form, `" OR "` for the
alternate form, chosen per call — before the criterion. Consequently, for
any call sequence started from a fresh builder, the rendered criteria text
is the first clause followed by `joiner ++ clause` for each later call; in
particular `where(A).or_where(B)` renders `<A> OR <B>` and
`where(A).where(B)` renders `<A> AND <B>`. -/
theorem c6_joiner_insertion {P : Type} :
    (∀ (q : Query P) c, q.criteria = [] → (rwhere q c).criteria = [c] ∧
        (or_where q c).criteria = [c]) ∧
    (∀ (q : Query P) c, q.criteria ≠ [] →
        (rwhere q c).criteria = q.criteria ++ [(" AND ", []), c] ∧
        (or_where q c).criteria = q.criteria ++ [(" OR ", []), c]) ∧
    (∀ (q : Query P) c, q.having = [] → (having q c).having = [c] ∧
        (or_having q c).having = [c]) ∧
    (∀ (q : Query P) c, q.having ≠ [] →
        (having q c).having = q.having ++ [(" AND ", []), c] ∧
        (or_having q c).having = q.having ++ [(" OR ", []), c]) ∧
    (∀ (t : String) calls,
        critText (applyWhere (Query.ofTable t : Query P) calls).criteria = renderCalls calls) ∧
    (∀ (t : String) calls,
        critText (applyHaving (Query.ofTable t : Query P) calls).having = renderCalls calls) ∧
    (∀ (t : String) (A B : String × List P),
        critText (or_where (rwhere (Query.ofTable t) A) B).criteria = A.1 ++ " OR " ++ B.1 ∧
        critText (rwhere (rwhere (Query.ofTable t) A) B).criteria = A.1 ++ " AND " ++ B.1 ∧
        critText (rwhere (Query.ofTable t) A).criteria = A.1) := by
  have hempty : ∀ (q : Query P) c, q.criteria = [] → (rwhere q c).criteria = [c] ∧
      (or_where q c).criteria = [c] := by
    intro q c h; constructor <;> simp [rwhere, or_where, h]
  have hcons : ∀ (q : Query P) c, q.criteria ≠ [] →
      (rwhere q c).criteria = q.criteria ++ [(" AND ", []), c] ∧
      (or_where q c).criteria = q.criteria ++ [(" OR ", []), c] := by
    intro q c h
    have hne : ¬q.criteria.isEmpty := by simpa [List.isEmpty_iff] using h
    constructor <;> simp [rwhere, or_where, hne]
  have hwhere : ∀ (t : String) calls,
      critText (applyWhere (Query.ofTable t : Query P) calls).criteria = renderCalls calls := by
    intro t calls
    cases calls with
    | nil => simp [applyWhere, renderCalls, critText, Query.ofTable, Query.new]
    | cons x rest =>
      obtain ⟨isOr, c⟩ := x
      have h0 : (Query.ofTable t : Query P).criteria = [] := rfl
      have h1 : (if isOr then or_where (Query.ofTable t : Query P) c
          else rwhere (Query.ofTable t) c).criteria = [c] := by
        cases isOr <;> simp [(hempty _ c h0).1, (hempty _ c h0).2]
      show critText (applyWhere (if isOr then or_where (Query.ofTable t : Query P) c
          else rwhere (Query.ofTable t) c) rest).criteria = _
      rw [applyWhere_ne_nil_text rest _ (by rw [h1]; simp), h1]
      have h2 : critText ([c] : List (String × List P)) = c.1 := by simp [critText]
      rw [h2]
      rfl
  refine ⟨hempty, hcons, ?_, ?_, hwhere, ?_, ?_⟩
  · intro q c h; constructor <;> simp [having, or_having, h]
  · intro q c h
    have hne : ¬q.having.isEmpty := by simpa [List.isEmpty_iff] using h
    constructor <;> simp [having, or_having, hne]
  · intro t calls
    cases calls with
    | nil => simp [applyHaving, renderCalls, critText, Query.ofTable, Query.new]
    | cons x rest =>
      obtain ⟨isOr, c⟩ := x
      have h0 : (Query.ofTable t : Query P).having = [] := rfl
      have h1 : (if isOr then or_having (Query.ofTable t : Query P) c
          else having (Query.ofTable t) c).having = [c] := by
        cases isOr <;> simp [having, or_having, h0]
      show critText (applyHaving (if isOr then or_having (Query.ofTable t : Query P) c
          else having (Query.ofTable t) c) rest).having = _
      rw [applyHaving_ne_nil_text rest _ (by rw [h1]; simp), h1]
      have h2 : critText ([c] : List (String × List P)) = c.1 := by simp [critText]
      rw [h2]
      rfl
  · intro t A B
    have h0 : (Query.ofTable t : Query P).criteria = [] := rfl
    have hA := (hempty (Query.ofTable t) A h0).1
    have hor := (hcons (rwhere (Query.ofTable t) A) B (by rw [hA]; simp)).2
    have hand := (hcons (rwhere (Query.ofTable t) A) B (by rw [hA]; simp)).1
    refine ⟨?_, ?_, ?_⟩
    · rw [hor, hA, critText_append]
      have : critText ([(" OR ", []), B] : List (String × List P)) = " OR " ++ B.1 := by
        simp [critText]
      rw [this]
      have hA1 : critText ([A] : List (String × List P)) = A.1 := by simp [critText]
      rw [hA1, String.append_assoc]
    · rw [hand, hA, critText_append]
      have : critText ([(" AND ", []), B] : List (String × List P)) = " AND " ++ B.1 := by
        simp [critText]
      rw [this]
      have hA1 : critText ([A] : List (String × List P)) = A.1 := by simp [critText]
      rw [hA1, String.append_assoc]
    · rw [hA]; simp [critText]

/-- C6 witness: concrete two-call sequences. -/
theorem c6_joiner_insertion_witness :
    critText (or_where (rwhere (Query.ofTable "users" : Query Unit) ("id=1", []))
        ("name='x'", [])).criteria = "id=1 OR name='x'" ∧
    critText (rwhere (rwhere (Query.ofTable "users" : Query Unit) ("id=1", []))
        ("name='x'", [])).criteria = "id=1 AND name='x'" ∧
    critText (rwhere (Query.ofTable "users" : Query Unit) ("id=1", [])).criteria = "id=1" := by
  have h := (c6_joiner_insertion (P := Unit)).2.2.2.2.2.2 "users" ("id=1", []) ("name='x'", [])
  exact ⟨by rw [h.1]; rfl, by rw [h.2.1]; rfl, by rw [h.2.2]⟩

/-! ## Bitmask helper lemmas -/

theorem bitTest_eq_testBit (m i : Nat) : bitTest m i = m.testBit i := by
  rcases Nat.mod_two_eq_zero_or_one (m >>> i) with h | h <;>
    simp [bitTest, Nat.testBit, Nat.and_one_is_mod, Nat.one_and_eq_mod_two, h]

theorem le_size_type {n : Nat} (hn : n ≤ 128) : n ≤ size_type n := by
  unfold size_type
  split_ifs <;> omega

theorem testBit_set_self (x i : Nat) : (x ||| 1 <<< i).testBit i = true := by
  simp [Nat.testBit_or, Nat.one_shiftLeft, Nat.testBit_two_pow]

theorem testBit_set_other (x : Nat) {i j : Nat} (h : j ≠ i) :
    (x ||| 1 <<< i).testBit j = x.testBit j := by
  simp [Nat.testBit_or, Nat.one_shiftLeft, Nat.testBit_two_pow, Ne.symm h]

theorem pos_of_set (x i : Nat) : 0 < (x ||| 1 <<< i) :=
  Nat.lt_of_lt_of_le (Nat.two_pow_pos i)
    (by simpa [Nat.one_shiftLeft] using Nat.testBit_implies_ge (testBit_set_self x i))

theorem testBit_clear_self {w i : Nat} (x : Nat) (hi : i < w) :
    (x &&& rustNot w (1 <<< i)).testBit i = false := by
  simp [rustNot, Nat.one_shiftLeft, Nat.testBit_and, Nat.testBit_xor,
    Nat.testBit_two_pow_sub_one, Nat.testBit_two_pow, hi]

theorem testBit_clear_other {w i j : Nat} (x : Nat) (hj : j < w) (hne : j ≠ i) :
    (x &&& rustNot w (1 <<< i)).testBit j = x.testBit j := by
  simp [rustNot, Nat.one_shiftLeft, Nat.testBit_and, Nat.testBit_xor,
    Nat.testBit_two_pow_sub_one, Nat.testBit_two_pow, hj, Ne.symm hne]

variable {n : Nat} {τ : Fin n → Type} [∀ i, Inhabited (τ i)]

/-! ## C3 — `unset` leaves the changed bit, `take` clears both -/

/-- C3: after `set(i, v)`, `unset(i)` resets the field to its default and
clears the `filled` bit for `i` only (other filled bits and the whole
`__sorm_update` mask are untouched), so the record is still `is_changed`
and field `i` still appears in `collect_changed`; `take(i)` on the other
hand clears both the `filled` and the `changed` bit for `i`. -/
theorem c3_unset_keeps_changed (r : Record n τ) (names : Fin n → String) (i : Fin n)
    (v : τ i) (hn : n ≤ 128) :
    ((r.set i v).unset i).vals i = default ∧
    bitTest ((r.set i v).unset i).sorm_set (i : Nat) = false ∧
    ((r.set i v).unset i).sorm_update = (r.set i v).sorm_update ∧
    (∀ j : Fin n, j ≠ i →
        bitTest ((r.set i v).unset i).sorm_set (j : Nat) =
          bitTest (r.set i v).sorm_set (j : Nat)) ∧
    ((r.set i v).unset i).is_changed = true ∧
    names i ∈ (((r.set i v).unset i).collect_changed names).map Prod.fst ∧
    (∀ v' r', (r.set i v).take names i = .ok (v', r') →
        bitTest r'.sorm_set (i : Nat) = false ∧
        bitTest r'.sorm_update (i : Nat) = false) := by
  have hi : (i : Nat) < size_type n := Nat.lt_of_lt_of_le i.isLt (le_size_type hn)
  have hset : bitTest (r.set i v).sorm_set (i : Nat) = true := by
    rw [bitTest_eq_testBit]
    exact testBit_set_self _ _
  have hunset : (r.set i v).unset i =
      { vals := Function.update (r.set i v).vals i default,
        sorm_set := (r.set i v).sorm_set &&& rustNot (size_type n) (1 <<< (i : Nat)),
        sorm_update := (r.set i v).sorm_update } := by
    simp [Record.unset, hset]
  refine ⟨?_, ?_, ?_, ?_, ?_, ?_, ?_⟩
  · rw [hunset]; exact Function.update_same i default _
  · rw [hunset, bitTest_eq_testBit]
    exact testBit_clear_self _ hi
  · rw [hunset]
  · intro j hj
    rw [hunset, bitTest_eq_testBit, bitTest_eq_testBit]
    exact testBit_clear_other _ (Nat.lt_of_lt_of_le j.isLt (le_size_type hn))
      (fun hh => hj (Fin.val_injective hh))
  · rw [hunset]
    show decide (0 < (r.set i v).sorm_update) = true
    simp only [Record.set]
    simp [pos_of_set]
  · rw [hunset]
    apply List.mem_map.mpr
    refine ⟨(names i, ⟨i, (Function.update (r.set i v).vals i default) i⟩), ?_, rfl⟩
    apply List.mem_filterMap.mpr
    refine ⟨i, List.mem_finRange i, ?_⟩
    have hupd : bitTest (r.set i v).sorm_update (i : Nat) = true := by
      rw [bitTest_eq_testBit]
      exact testBit_set_self _ _
    rw [hupd]
    rfl
  · intro v' r' h
    rw [Record.take, if_pos hset] at h
    have hr' : r' =
        { vals := Function.update (r.set i v).vals i default,
          sorm_set := (r.set i v).sorm_set &&& rustNot (size_type n) (1 <<< (i : Nat)),
          sorm_update := (r.set i v).sorm_update &&& rustNot (size_type n) (1 <<< (i : Nat)) } := by
      cases h
      rfl
    subst hr'
    rw [bitTest_eq_testBit, bitTest_eq_testBit]
    exact ⟨testBit_clear_self _ hi, testBit_clear_self _ hi⟩

/-- C3 witness: a two-field record over `Nat`. -/
theorem c3_unset_keeps_changed_witness :
    (((Record.new : Record 2 (fun _ => Nat)).set 0 5 |>.unset 0).is_changed = true) ∧
    (((Record.new : Record 2 (fun _ => Nat)).set 0 5 |>.unset 0).vals 0 = 0) := by
  have h := c3_unset_keeps_changed (Record.new : Record 2 (fun _ => Nat))
    (fun _ => "f") 0 5 (by omega)
  exact ⟨h.2.2.2.2.1, h.1⟩

/-! ## C9 — set / flush / take / get -/

/-- C9: `set(i, v)` makes the field filled and the record changed;
`flush()` clears `is_changed` without touching the filled bits; a
successful `take(i)` returns the previous value, unfills the field, and
resets it to the default; `take`/`get` fail with `FieldAbsent` when the
filled bit is clear. -/
theorem c9_field_state (r : Record n τ) (names : Fin n → String) (i : Fin n)
    (v : τ i) (hn : n ≤ 128) :
    (r.set i v).isset i = true ∧
    (r.set i v).is_changed = true ∧
    r.flush.is_changed = false ∧
    r.flush.sorm_set = r.sorm_set ∧
    (∀ v' r', r.take names i = .ok (v', r') →
        v' = r.vals i ∧ r'.isset i = false ∧ r'.vals i = default) ∧
    (r.isset i = false →
        r.take names i = .error (.FieldAbsent (names i)) ∧
        r.get names i = .error (.FieldAbsent (names i))) := by
  have hi : (i : Nat) < size_type n := Nat.lt_of_lt_of_le i.isLt (le_size_type hn)
  refine ⟨?_, ?_, rfl, rfl, ?_, ?_⟩
  · show bitTest (r.set i v).sorm_set (i : Nat) = true
    rw [bitTest_eq_testBit]
    exact testBit_set_self _ _
  · show decide (0 < (r.set i v).sorm_update) = true
    simp only [Record.set]
    simp [pos_of_set]
  · intro v' r' h
    rw [Record.take] at h
    by_cases hb : bitTest r.sorm_set (i : Nat)
    · rw [if_pos hb] at h
      have hv : v' = r.vals i ∧ r' =
          { vals := Function.update r.vals i default,
            sorm_set := r.sorm_set &&& rustNot (size_type n) (1 <<< (i : Nat)),
            sorm_update := r.sorm_update &&& rustNot (size_type n) (1 <<< (i : Nat)) } := by
        cases h
        exact ⟨rfl, rfl⟩
      obtain ⟨hv1, hv2⟩ := hv
      subst hv1; subst hv2
      refine ⟨rfl, ?_, Function.update_same i default _⟩
      show bitTest _ (i : Nat) = false
      rw [bitTest_eq_testBit]
      exact testBit_clear_self _ hi
    · rw [if_neg hb] at h
      cases h
  · intro hb
    have hb' : bitTest r.sorm_set (i : Nat) = false := hb
    constructor
    · rw [Record.take, if_neg (by rw [hb']; simp)]
    · rw [Record.get, if_neg (by rw [hb']; simp)]

/-- C9 witness. -/
theorem c9_field_state_witness :
    ((Record.new : Record 2 (fun _ => Nat)).set 0 5).isset 0 = true ∧
    ((Record.new : Record 2 (fun _ => Nat)).set 0 5).is_changed = true ∧
    ((Record.new : Record 2 (fun _ => Nat)).set 0 5).flush.is_changed = false := by
  have h := c9_field_state (Record.new : Record 2 (fun _ => Nat)) (fun _ => "f") 0 5 (by omega)
  have h2 := c9_field_state ((Record.new : Record 2 (fun _ => Nat)).set 0 5)
    (fun _ => "f") 0 5 (by omega)
  exact ⟨h.1, h.2.1, h2.2.2.1⟩

/-! ## C10 — the unfilled-means-default invariant -/

/-- Every field whose `filled` bit in `__sorm_set` is clear holds its
type's default value. -/
def DefaultInv (r : Record n τ) : Prop :=
  ∀ i : Fin n, r.sorm_set.testBit (i : Nat) = false → r.vals i = default

theorem set_preserves_DefaultInv (r : Record n τ) (i : Fin n) (v : τ i)
    (hr : DefaultInv r) :
    DefaultInv { r with vals := Function.update r.vals i v,
                        sorm_set := r.sorm_set ||| 1 <<< (i : Nat) } := by
  intro j hj
  have hji : (j : Nat) ≠ (i : Nat) := by
    intro he
    rw [he, testBit_set_self] at hj
    cases hj
  have hj' : r.sorm_set.testBit (j : Nat) = false := by
    rw [testBit_set_other _ hji] at hj
    exact hj
  show Function.update r.vals i v j = default
  rw [Function.update_noteq (fun he => hji (congrArg Fin.val he)) v r.vals]
  exact hr j hj'

theorem clear_preserves_DefaultInv (r : Record n τ) (i : Fin n) (m : Nat)
    (hn : n ≤ 128) (hr : DefaultInv r)
    (hm : m = r.sorm_set &&& rustNot (size_type n) (1 <<< (i : Nat))) :
    DefaultInv { r with vals := Function.update r.vals i default, sorm_set := m } := by
  intro j hj
  by_cases hji : j = i
  · subst hji
    exact Function.update_same j default r.vals
  · have hjv : (j : Nat) ≠ (i : Nat) := fun he => hji (Fin.val_injective he)
    have hjw : (j : Nat) < size_type n := Nat.lt_of_lt_of_le j.isLt (le_size_type hn)
    have hj' : r.sorm_set.testBit (j : Nat) = false := by
      rw [hm, testBit_clear_other _ hjw hjv] at hj
      exact hj
    show Function.update r.vals i default j = default
    rw [Function.update_noteq hji default r.vals]
    exact hr j hj'

theorem from_row_fold_DefaultInv (row : (i : Fin n) → RowRes (τ i)) :
    ∀ (l : List (Fin n)) (r0 : Record n τ), DefaultInv r0 →
      ∀ r', l.foldlM (fromRowStep row) r0 = .ok r' → DefaultInv r' := by
  intro l
  induction l with
  | nil =>
    intro r0 h0 r' hr'
    cases hr'
    exact h0
  | cons i l ih =>
    intro r0 h0 r' hr'
    rw [List.foldlM_cons] at hr'
    cases hrow : row i with
    | ok v =>
      rw [fromRowStep, hrow] at hr'
      exact ih _ (set_preserves_DefaultInv r0 i v h0) r' hr'
    | columnNotFound =>
      rw [fromRowStep, hrow] at hr'
      exact ih r0 h0 r' hr'
    | err =>
      rw [fromRowStep, hrow] at hr'
      cases hr'

/-- C10: the invariant "every field whose filled bit is 0 holds its
default" holds for `new` and is preserved by the setters, a successful
`take`, `unset` and `from_row`; moreover `unset` on a field whose filled
bit is already clear leaves the record completely unchanged. -/
theorem c10_default_invariant (hn : n ≤ 128) :
    DefaultInv (Record.new : Record n τ) ∧
    (∀ (r : Record n τ) (i : Fin n) (v : τ i), DefaultInv r → DefaultInv (r.set i v)) ∧
    (∀ (r : Record n τ) (names : Fin n → String) (i : Fin n) v' r',
        DefaultInv r → r.take names i = .ok (v', r') → DefaultInv r') ∧
    (∀ (r : Record n τ) (i : Fin n), DefaultInv r → DefaultInv (r.unset i)) ∧
    (∀ (row : (i : Fin n) → RowRes (τ i)) (r : Record n τ),
        Record.from_row row = .ok r → DefaultInv r) ∧
    (∀ (r : Record n τ) (i : Fin n), r.sorm_set.testBit (i : Nat) = false →
        r.unset i = r) := by
  refine ⟨?_, ?_, ?_, ?_, ?_, ?_⟩
  · intro i _
    rfl
  · intro r i v hr
    exact set_preserves_DefaultInv r i v hr
  · intro r names i v' r' hr h
    rw [Record.take] at h
    by_cases hb : bitTest r.sorm_set (i : Nat)
    · rw [if_pos hb] at h
      have hr' : r' =
          { vals := Function.update r.vals i default,
            sorm_set := r.sorm_set &&& rustNot (size_type n) (1 <<< (i : Nat)),
            sorm_update := r.sorm_update &&& rustNot (size_type n) (1 <<< (i : Nat)) } := by
        cases h
        rfl
      subst hr'
      exact clear_preserves_DefaultInv r i _ hn hr rfl
    · rw [if_neg hb] at h
      cases h
  · intro r i hr
    rw [Record.unset]
    by_cases hb : bitTest r.sorm_set (i : Nat)
    · rw [if_pos hb]
      exact clear_preserves_DefaultInv r i _ hn hr rfl
    · rw [if_neg hb]
      exact hr
  · intro row r h
    exact from_row_fold_DefaultInv row (List.finRange n) Record.new
      (fun i _ => rfl) r h
  · intro r i h
    rw [Record.unset, if_neg]
    rw [bitTest_eq_testBit, h]
    simp

/-- C10 witness. -/
theorem c10_default_invariant_witness :
    (Record.new : Record 2 (fun _ => Nat)).unset 1 = Record.new ∧
    DefaultInv ((Record.new : Record 2 (fun _ => Nat)).set 0 5) := by
  have h := c10_default_invariant (n := 2) (τ := fun _ => Nat) (by omega)
  exact ⟨h.2.2.2.2.2 _ 1 (by decide), h.2.1 _ 0 5 h.1⟩

/-! ## C5 — spread expansion -/

/-- `k` comma-joined `?` placeholders with no trailing comma (empty for
`k = 0`) — the text the spec prescribes for a spread of length `k`. -/
def placeholders : Nat → List Char
  | 0 => []
  | 1 => ['?']
  | k + 2 => '?' :: ',' :: placeholders (k + 1)

theorem spread_flatten_dropLast (k : Nat) :
    ((List.replicate (k + 1) (['?', ','] : List Char)).flatten).dropLast =
      placeholders (k + 1) := by
  induction k with
  | zero => rfl
  | succ k ih =>
    have hrep : List.replicate (k + 2) (['?', ','] : List Char) =
        ['?', ','] :: List.replicate (k + 1) ['?', ','] := rfl
    rw [hrep, List.flatten_cons]
    have hne : (List.replicate (k + 1) (['?', ','] : List Char)).flatten ≠ [] := by
      rw [show List.replicate (k + 1) (['?', ','] : List Char) =
          ['?', ','] :: List.replicate k ['?', ','] from rfl, List.flatten_cons]
      simp
    show (('?' :: ',' :: (List.replicate (k + 1) (['?', ','] : List Char)).flatten)).dropLast = _
    rw [List.dropLast_cons_of_ne_nil (by simp [hne]),
      List.dropLast_cons_of_ne_nil hne, ih]
    rfl

theorem spreadSql_eq_placeholders (k : Nat) : spreadSql k = placeholders k := by
  cases k with
  | zero => rfl
  | succ k =>
    have h : spreadSql (k + 1) =
        ((List.replicate (k + 1) (['?', ','] : List Char)).flatten).dropLast := by
      simp [spreadSql]
    rw [h, spread_flatten_dropLast]

/-- The SQL contribution of one compiled segment. -/
def segSql (envL : List Char → List V) : Seg → List Char
  | .static sql _ => sql
  | .spread e => placeholders (envL e).length

/-- The parameter contribution of one compiled segment. -/
def segParams (envS : List Char → V) (envL : List Char → List V) : Seg → List V
  | .static _ exprs => exprs.map envS
  | .spread e => envL e

theorem evalSegsAux_concat (envS : List Char → V) (envL : List Char → List V) :
    ∀ (segs : List Seg) (sqlAcc : List Char) (paramAcc : List V),
      evalSegsAux envS envL sqlAcc paramAcc segs =
        (sqlAcc ++ (segs.map (segSql envL)).flatten,
         paramAcc ++ (segs.map (segParams envS envL)).flatten) := by
  intro segs
  induction segs with
  | nil => intro a b; simp [evalSegsAux]
  | cons s rest ih =>
    intro a b
    cases s with
    | static sql exprs =>
      simp [evalSegsAux, ih, segSql, segParams, List.append_assoc]
    | spread e =>
      simp [evalSegsAux, ih, segSql, segParams, spreadSql_eq_placeholders,
        List.append_assoc]

set_option linter.unusedVariables false in
/-- C5: for every template that compiles (so in particular for every
template with a spread segment), evaluating the compiled clause produces
exactly the left-to-right concatenation of the segments' contributions, in
source order; a spread segment whose sequence has length `N` contributes
`placeholders N` — `N` comma-joined `?` with no trailing comma, empty when
`N = 0` — to the SQL and the `N` sequence elements, in order, to the
parameter list. -/
theorem c5_spread_expansion {V : Type} (s : List Char) (segs : List Seg)
    (envS : List Char → V) (envL : List Char → List V)
    (h : compileClause s = .ok segs) :
    evalSegs envS envL segs =
      ((segs.map (segSql envL)).flatten, (segs.map (segParams envS envL)).flatten) ∧
    ∀ e, segSql envL (.spread e) = placeholders (envL e).length := by
  refine ⟨?_, fun e => rfl⟩
  rw [evalSegs, evalSegsAux_concat]
  simp

/-- C5 witness: `"id IN ({#ids})"` with `ids = [1,2,3]` and `ids = []`. -/
theorem c5_spread_expansion_witness :
    compileClause ("id IN (\x7b#ids\x7d)".toList) =
      .ok [Seg.static ("id IN (".toList) [], Seg.spread ("ids".toList),
           Seg.static (")".toList) []] ∧
    evalSegs (fun _ => (0 : Nat)) (fun _ => [1, 2, 3])
      [Seg.static ("id IN (".toList) [], Seg.spread ("ids".toList),
       Seg.static (")".toList) []] = ("id IN (?,?,?)".toList, [1, 2, 3]) ∧
    evalSegs (fun _ => (0 : Nat)) (fun _ => ([] : List Nat))
      [Seg.static ("id IN (".toList) [], Seg.spread ("ids".toList),
       Seg.static (")".toList) []] = ("id IN ()".toList, []) := by
  have hc : compileClause ("id IN (\x7b#ids\x7d)".toList) =
      .ok [Seg.static ("id IN (".toList) [], Seg.spread ("ids".toList),
           Seg.static (")".toList) []] := by
    simp [compileClause, split_clause, splitClauseAux, findSpreadEnd, parse_clause,
      parseClauseAux, List.mapM, List.mapM.loop, Except.map, Except.bind, Except.pure,
      bind, pure]
  refine ⟨hc, ?_, ?_⟩
  · rw [(c5_spread_expansion _ _ _ _ hc).1]
    decide
  · rw [(c5_spread_expansion _ _ _ _ hc).1]
    decide

/-! ## C7 — dialect rendering -/

/-- The numbered placeholder interleaving the spec prescribes: between
consecutive `?`-free segments, the `k`-th `?` (1-based, left to right)
becomes `$k`. -/
def numberedJoin (k : Nat) : List (List Char) → List Char
  | [] => []
  | [s] => s
  | s :: s2 :: rest => s ++ '$' :: natChars k ++ numberedJoin (k + 1) (s2 :: rest)

theorem intercalate_q_cons₂ (s s2 : List Char) (rest : List (List Char)) :
    List.intercalate ['?'] (s :: s2 :: rest) =
      s ++ '?' :: List.intercalate ['?'] (s2 :: rest) := by
  simp [List.intercalate, List.intersperse_cons₂]

theorem pgReplaceAux_intercalate (segs : List (List Char)) :
    ∀ k, (∀ seg ∈ segs, '?' ∉ seg) →
      pgReplaceAux k (List.intercalate ['?'] segs) = numberedJoin k segs := by
  induction segs with
  | nil => intro k _; simp [List.intercalate, pgReplaceAux, numberedJoin]
  | cons s rest ih =>
    intro k h
    have hs : '?' ∉ s := h s (List.mem_cons_self s rest)
    cases rest with
    | nil =>
      have h1 : List.intercalate ['?'] [s] = s := by simp [List.intercalate]
      rw [h1, pgReplaceAux_of_no_placeholder s k hs]
      rfl
    | cons s2 rest2 =>
      rw [intercalate_q_cons₂, pgReplaceAux_append,
        pgReplaceAux_of_no_placeholder s k hs,
        List.count_eq_zero.mpr hs]
      have h2 : pgReplaceAux (k + 0) ('?' :: List.intercalate ['?'] (s2 :: rest2)) =
          '$' :: natChars (k + 0) ++ pgReplaceAux (k + 0 + 1) (List.intercalate ['?'] (s2 :: rest2)) := by
        simp [pgReplaceAux]
      rw [h2, ih (k + 0 + 1) (fun seg hseg => h seg (List.mem_cons_of_mem s hseg))]
      show s ++ ('$' :: natChars (k + 0) ++ numberedJoin (k + 0 + 1) (s2 :: rest2)) =
        s ++ '$' :: natChars k ++ numberedJoin (k + 1) (s2 :: rest2)
      simp [List.append_assoc]

/-- C7: the Postgres dialect quotes identifiers in double quotes and, as the
final rendering step over the fully assembled SQL (`build_select` applies
`pg_replace_placeholder` to the complete statement; `update`/`delete` have
the same shape), rewrites the `?` markers left-to-right into `$1, $2, …`
(consecutive numbers starting at 1, hence strictly increasing over the
rendered text); the other dialects quote identifiers in backticks and
return the assembled SQL unchanged, leaving every `?` as is. -/
theorem c7_dialect_rendering {P : Type} :
    (∀ s i, concat_ident true s i = s ++ "\"" ++ i ++ "\"") ∧
    (∀ s i, concat_ident false s i = s ++ "`" ++ i ++ "`") ∧
    (∀ segs : List (List Char), (∀ seg ∈ segs, '?' ∉ seg) →
        pgReplaceAux 1 (List.intercalate ['?'] segs) = numberedJoin 1 segs) ∧
    (∀ s : String, pg_replace_placeholder s = ⟨pgReplaceAux 1 s.data⟩) ∧
    (∀ (q : Query P) l,
        build_select true q l =
          (pg_replace_placeholder ((selectBody true q).1 ++ limitSql q l ++ offsetSql q),
           (selectBody true q).2) ∧
        build_select false q l =
          ((selectBody false q).1 ++ limitSql q l ++ offsetSql q,
           (selectBody false q).2)) := by
  refine ⟨fun s i => rfl, fun s i => rfl, ?_, fun s => rfl, fun q l => ⟨rfl, rfl⟩⟩
  intro segs h
  exact pgReplaceAux_intercalate segs 1 h

/-- C7 witness: two placeholders become `$1` and `$2`. -/
theorem c7_dialect_rendering_witness :
    pg_replace_placeholder "a=? AND b=?" = "a=$1 AND b=$2" ∧
    concat_ident true "" "users" = "\"users\"" ∧
    concat_ident false "" "users" = "`users`" := by
  have h := (c7_dialect_rendering (P := Unit)).2.2.1
    ["a=".toList, " AND b=".toList, ([] : List Char)] (by decide)
  refine ⟨?_, rfl, rfl⟩
  have hdata : ("a=? AND b=?" : String).data =
      List.intercalate ['?'] ["a=".toList, " AND b=".toList, ([] : List Char)] := by decide
  show (⟨pgReplaceAux 1 ("a=? AND b=?" : String).data⟩ : String) = _
  rw [hdata, h]
  decide

/-! ## C8 — malformed templates fail compilation -/

theorem parseClauseAux_scan (p : List Char) :
    ∀ (sql : List Char) (params : List (List Char)) (cs : List Char),
      '{' ∉ p → '}' ∉ p →
      parseClauseAux sql params none (p ++ cs) = parseClauseAux (sql ++ p) params none cs := by
  induction p with
  | nil => intro sql params cs _ _; simp
  | cons c p ih =>
    intro sql params cs h1 h2
    have hc1 : c ≠ '{' := fun h => h1 (h ▸ List.mem_cons_self c p)
    have hc2 : c ≠ '}' := fun h => h2 (h ▸ List.mem_cons_self c p)
    have hstep : parseClauseAux sql params none (c :: (p ++ cs)) =
        parseClauseAux (sql ++ [c]) params none (p ++ cs) := by
      rw [parseClauseAux.eq_def]
      simp only [if_neg hc1, if_neg hc2]
    show parseClauseAux sql params none (c :: (p ++ cs)) = _
    rw [hstep, ih (sql ++ [c]) params cs (fun hm => h1 (List.mem_cons_of_mem c hm))
      (fun hm => h2 (List.mem_cons_of_mem c hm))]
    simp

theorem parseClauseAux_open_scan (q : List Char) :
    ∀ (sql : List Char) (params : List (List Char)) (acc : List Char),
      '{' ∉ q → '}' ∉ q →
      parseClauseAux sql params (some acc) q = .error .unclosedLBrace := by
  induction q with
  | nil => intro sql params acc _ _; rfl
  | cons c q ih =>
    intro sql params acc h1 h2
    have hc1 : c ≠ '{' := fun h => h1 (h ▸ List.mem_cons_self c q)
    have hc2 : c ≠ '}' := fun h => h2 (h ▸ List.mem_cons_self c q)
    have hstep : parseClauseAux sql params (some acc) (c :: q) =
        parseClauseAux sql params (some (acc ++ [c])) q := by
      rw [parseClauseAux.eq_def]
      simp only [if_neg hc1, if_neg hc2]
    rw [hstep]
    exact ih _ _ _ (fun hm => h1 (List.mem_cons_of_mem c hm))
      (fun hm => h2 (List.mem_cons_of_mem c hm))

theorem parse_stray_rbrace (p q : List Char) (hp1 : '{' ∉ p) (hp2 : '}' ∉ p)
    (hq2 : '}' ∉ q) :
    parse_clause (p ++ '}' :: q) = .error .unexpectedRBrace := by
  rw [parse_clause, parseClauseAux_scan p [] [] ('}' :: q) hp1 hp2]
  cases q with
  | nil => rfl
  | cons c2 q2 =>
    have hc2 : c2 ≠ '}' := fun h => hq2 (h ▸ List.mem_cons_self c2 q2)
    rw [parseClauseAux.eq_def]
    simp [hc2]

theorem parse_unclosed_lbrace (p q : List Char) (hp1 : '{' ∉ p) (hp2 : '}' ∉ p)
    (hq1 : '{' ∉ q) (hq2 : '}' ∉ q) :
    ∃ e, parse_clause (p ++ '{' :: q) = .error e := by
  rw [parse_clause, parseClauseAux_scan p [] [] ('{' :: q) hp1 hp2]
  cases q with
  | nil => exact ⟨.unexpectedLBrace, rfl⟩
  | cons c2 q2 =>
    have hc2 : c2 ≠ '{' := fun h => hq1 (h ▸ List.mem_cons_self c2 q2)
    refine ⟨.unclosedLBrace, ?_⟩
    rw [parseClauseAux.eq_def]
    simp only [if_neg hc2]
    show parseClauseAux ([] ++ p) [] (some []) (c2 :: q2) = _
    exact parseClauseAux_open_scan (c2 :: q2) ([] ++ p) [] [] hq1 hq2

theorem parse_empty_braces (p q : List Char) (hp1 : '{' ∉ p) (hp2 : '}' ∉ p)
    (hq2 : '}' ∉ q) :
    parse_clause (p ++ '{' :: '}' :: q) = .error .unexpectedRBrace := by
  rw [parse_clause, parseClauseAux_scan p [] [] ('{' :: '}' :: q) hp1 hp2]
  show parseClauseAux ([] ++ p) [] (some []) ('}' :: q) = .error .unexpectedRBrace
  cases q with
  | nil => rfl
  | cons c2 q2 =>
    have hc2 : c2 ≠ '}' := fun h => hq2 (h ▸ List.mem_cons_self c2 q2)
    rw [parseClauseAux.eq_def]
    simp [hc2]

theorem splitClauseAux_scan (p : List Char) :
    ∀ (parts : List Part) (acc : List Char) (cs : List Char), '{' ∉ p →
      splitClauseAux parts acc 0 (p ++ cs) = splitClauseAux parts (acc ++ p) 0 cs := by
  induction p with
  | nil => intro parts acc cs _; simp
  | cons c p ih =>
    intro parts acc cs h1
    have hc1 : c ≠ '{' := fun h => h1 (h ▸ List.mem_cons_self c p)
    have hstep : splitClauseAux parts acc 0 (c :: (p ++ cs)) =
        splitClauseAux parts (acc ++ [c]) 0 (p ++ cs) := by
      rw [splitClauseAux.eq_def]
      simp only [if_neg hc1,
        if_neg (show ¬(c = '#' ∧ (0 : Nat) % 2 = 1) by simp)]
    show splitClauseAux parts acc 0 (c :: (p ++ cs)) = _
    rw [hstep, ih parts (acc ++ [c]) cs (fun hm => h1 (List.mem_cons_of_mem c hm))]
    simp

theorem split_no_lbrace (s : List Char) (h : '{' ∉ s) :
    split_clause s = .ok (if s = [] then [] else [.ok s]) := by
  have h2 : splitClauseAux [] [] 0 (s ++ []) = splitClauseAux [] ([] ++ s) 0 [] :=
    splitClauseAux_scan s [] [] [] h
  rw [List.append_nil] at h2
  rw [split_clause, h2]
  simp [splitClauseAux]

theorem compile_single_err (s chunk : List Char) (hs : split_clause s = .ok [.ok chunk])
    (e : ClauseErr) (hp : parse_clause chunk = .error e) :
    compileClause s = .error e := by
  rw [compileClause, hs]
  simp [List.mapM, List.mapM.loop, hp, Except.map]

/-- C8: a template with a stray `}` (no matching open), an unmatched `{`,
or an empty `{}` placeholder fails compilation with a syntax error — the
compile pipeline returns `Except.error` from template registration, so no
`(sql, params)` fragment is ever produced and nothing is deferred to
execution. `p`/`q` range over arbitrary brace-free surrounding text (for
the unmatched-`{` family, `q` must additionally not start with `#`, which
would make `{#` a spread opener — itself also an error, via `split_clause`,
when unclosed). -/
theorem c8_malformed_templates_fail (p q : List Char)
    (hp1 : '{' ∉ p) (hp2 : '}' ∉ p) (hq1 : '{' ∉ q) (hq2 : '}' ∉ q) :
    compileClause (p ++ '}' :: q) = .error .unexpectedRBrace ∧
    compileClause (p ++ '{' :: '}' :: q) = .error .unexpectedRBrace ∧
    (q.head? ≠ some '#' → ∃ e, compileClause (p ++ '{' :: q) = .error e) := by
  refine ⟨?_, ?_, ?_⟩
  · -- stray `}`
    have hnol : '{' ∉ p ++ '}' :: q := by
      simp [List.mem_append, hp1, hq1]
    have hsplit := split_no_lbrace (p ++ '}' :: q) hnol
    rw [if_neg (show ¬(p ++ '}' :: q = []) by simp)] at hsplit
    exact compile_single_err _ _ hsplit _ (parse_stray_rbrace p q hp1 hp2 hq2)
  · -- empty `{}`
    have hsplit : split_clause (p ++ '{' :: '}' :: q) = .ok [.ok (p ++ '{' :: '}' :: q)] := by
      rw [split_clause, splitClauseAux_scan p [] [] ('{' :: '}' :: q) hp1]
      have hstep1 : splitClauseAux [] ([] ++ p) 0 ('{' :: '}' :: q) =
          splitClauseAux [] (([] ++ p) ++ ['{']) (0 + 1) ('}' :: q) := by
        rw [splitClauseAux.eq_def]
        simp
      have hstep2 : splitClauseAux [] (([] ++ p) ++ ['{']) (0 + 1) ('}' :: q) =
          splitClauseAux [] ((([] ++ p) ++ ['{']) ++ ['}']) 0 q := by
        rw [splitClauseAux.eq_def]
        simp
      rw [hstep1, hstep2]
      have h3 : splitClauseAux [] ((([] ++ p) ++ ['{']) ++ ['}']) 0 (q ++ []) =
          splitClauseAux [] (((([] ++ p) ++ ['{']) ++ ['}']) ++ q) 0 [] :=
        splitClauseAux_scan q [] _ [] hq1
      rw [List.append_nil] at h3
      rw [h3, splitClauseAux]
      rw [if_neg (show ¬((((([] ++ p) ++ ['{']) ++ ['}']) ++ q) = []) by simp)]
      simp
    exact compile_single_err _ _ hsplit _ (parse_empty_braces p q hp1 hp2 hq2)
  · -- unmatched `{`
    intro hq3
    obtain ⟨e, he⟩ := parse_unclosed_lbrace p q hp1 hp2 hq1 hq2
    refine ⟨e, ?_⟩
    have hsplit : split_clause (p ++ '{' :: q) = .ok [.ok (p ++ '{' :: q)] := by
      rw [split_clause, splitClauseAux_scan p [] [] ('{' :: q) hp1]
      have hstep1 : splitClauseAux [] ([] ++ p) 0 ('{' :: q) =
          splitClauseAux [] (([] ++ p) ++ ['{']) (0 + 1) q := by
        rw [splitClauseAux.eq_def]
        simp
      rw [hstep1]
      cases q with
      | nil =>
        rw [splitClauseAux]
        rw [if_neg (show ¬((([] ++ p) ++ ['{']) = []) by simp)]
        simp
      | cons c2 q2 =>
        have hc2h : c2 ≠ '#' := by
          intro h
          exact hq3 (by rw [h]; rfl)
        have hc2l : c2 ≠ '{' := fun h => hq1 (h ▸ List.mem_cons_self c2 q2)
        have hstep : splitClauseAux [] (([] ++ p) ++ ['{']) (0 + 1) (c2 :: q2) =
            splitClauseAux [] ((([] ++ p) ++ ['{']) ++ [c2]) 0 q2 := by
          rw [splitClauseAux.eq_def]
          simp [hc2l, hc2h]
        rw [hstep]
        have h3 : splitClauseAux [] ((([] ++ p) ++ ['{']) ++ [c2]) 0 (q2 ++ []) =
            splitClauseAux [] (((([] ++ p) ++ ['{']) ++ [c2]) ++ q2) 0 [] :=
          splitClauseAux_scan q2 [] _ [] (fun hm => hq1 (List.mem_cons_of_mem c2 hm))
        rw [List.append_nil] at h3
        rw [h3, splitClauseAux]
        rw [if_neg (show ¬(((((([] ++ p) ++ ['{']) ++ [c2])) ++ q2) = []) by simp)]
        simp
    exact compile_single_err _ _ hsplit _ he

/-- C8 witness: `"a=}b"`, `"a={}b"` fail with `unexpected` `}`; `"a={b"`
fails with `unclosed` `{`. -/
theorem c8_malformed_templates_fail_witness :
    compileClause ("a=\x7db".toList) = .error .unexpectedRBrace ∧
    compileClause ("a=\x7b\x7db".toList) = .error .unexpectedRBrace ∧
    compileClause ("a=\x7bb".toList) = .error .unclosedLBrace := by
  have h := c8_malformed_templates_fail ("a=".toList) ("b".toList)
    (by decide) (by decide) (by decide) (by decide)
  refine ⟨h.1, h.2.1, ?_⟩
  simp [compileClause, split_clause, splitClauseAux, findSpreadEnd, parse_clause,
    parseClauseAux, List.mapM, List.mapM.loop, Except.map, Except.bind, Except.pure,
    bind, pure]

end Sorm
